import Mathlib

/-!
Verification of the EM4102 RFID-tag emulator (`firmware/avrfid.S`,
`firmware/test.c`).

The firmware is straight-line AVR assembly produced by recursive assembler
macros.  We embed it shallowly:

* the cycle-exact baseband routines (`baseband30_0` / `baseband30_1` and the
  `delay` / `baseband_0` / `baseband_1` macros) become lists of instructions
  with their documented cycle costs;
* the `manchester` macro becomes a recursive function producing, at the
  baseband level, the emitted half-bit drive states, and, at the logical
  level, the emitted logical bits;
* the `ROW_PARITY` / `COLUMN_PARITY*` preprocessor macros become the
  corresponding `Nat` computations;
* the bodies of `emulateid0` / `emulateid1` / `emulateid2` become the list of
  logical bits of one frame; their trailing `rjmp` back to the label makes the
  emission an infinite periodic stream, modelled by indexing the frame
  modulo its length;
* the polling loop of `test.c` becomes a dispatch function on the sampled
  `PINB` value (the emulators never return, so the three sequential `if`s
  behave as a first-match chain).

The constants of `id.h` (`EM4102_MFR_ID`, `EM4102_MFR_ID2`,
`EM4102_UNIQUE_ID0/1/2`) are build-time configuration; they are modelled as
an abstract configuration record, and all theorems quantify over it.
-/

/-! ### Baseband bit emitter: instruction traces and cycle counts -/

/-- The AVR instructions executed by the emission routines of `avrfid.S`. -/
inductive Instr
  | ldi (imm : Nat)
  | rjmp
  | rcall
  | out (v : Nat)
  | nop
  | ret
deriving DecidableEq

/-- Cycle cost of each instruction, as documented in the `avrfid.S`
comments (ldi 1, rjmp 2, rcall 3, out 1, nop 1, ret 4). -/
def instrCycles : Instr → Nat
  | .ldi _ => 1
  | .rjmp => 2
  | .rcall => 3
  | .out _ => 1
  | .nop => 1
  | .ret => 4

/-- Total cycle count of an instruction trace. -/
def traceCycles (l : List Instr) : Nat := (l.map instrCycles).sum

/-- The `delay cycles` assembler macro: `rjmp .+0` (2 cycles) while more than
one cycle remains, a final `nop` for an odd cycle. -/
def delayTrace : Nat → List Instr
  | 0 => []
  | 1 => [Instr.nop]
  | n + 2 => Instr.rjmp :: delayTrace n

/-- Constant `OUT_PINS = _BV(PINB3) | _BV(PINB4)`. -/
def OUT_PINS : Nat := (1 <<< 3) ||| (1 <<< 4)

/-- Body of `baseband30`: `out DDRB, r16`, `delay 19`, `ret`. -/
def baseband30Trace (r16 : Nat) : List Instr :=
  Instr.out r16 :: (delayTrace 19 ++ [Instr.ret])

/-- Routine `baseband30_0`: `ldi r16, 0`, `rjmp baseband30`, then `baseband30`. -/
def baseband30_0Trace : List Instr :=
  Instr.ldi 0 :: Instr.rjmp :: baseband30Trace 0

/-- Routine `baseband30_1`: `ldi r16, OUT_PINS`, `rjmp baseband30`, then `baseband30`. -/
def baseband30_1Trace : List Instr :=
  Instr.ldi OUT_PINS :: Instr.rjmp :: baseband30Trace OUT_PINS

/-- The `baseband_0` macro: `rcall baseband30_0` followed by the padding
`rjmp .+0`; the trace contains everything executed during the invocation. -/
def baseband_0Trace : List Instr :=
  Instr.rcall :: baseband30_0Trace ++ [Instr.rjmp]

/-- The `baseband_1` macro: `rcall baseband30_1` followed by `rjmp .+0`. -/
def baseband_1Trace : List Instr :=
  Instr.rcall :: baseband30_1Trace ++ [Instr.rjmp]

/-- The `delay` macro consumes exactly the requested number of cycles. -/
lemma traceCycles_delayTrace : ∀ n, traceCycles (delayTrace n) = n
  | 0 => rfl
  | 1 => rfl
  | n + 2 => by
      have ih := traceCycles_delayTrace n
      simp [delayTrace, traceCycles, instrCycles] at ih ⊢
      omega

/-! ### Parity macros -/

/-- Macro `ROW_PARITY(n)` from `avrfid.S`: the low nibble shifted left one bit,
OR'd with the even-parity bit of the nibble. -/
def rowParity (n : Nat) : Nat :=
  ((n &&& 0xF) <<< 1) ||| ((n ^^^ (n >>> 1) ^^^ (n >>> 2) ^^^ (n >>> 3)) &&& 1)

/-- Macros `COLUMN_PARITY0/1/2` from `avrfid.S`, as a function of the two id.h
constants it mentions: XOR of the two manufacturer nibble positions and the
eight unique-id nibble positions (shifts 28 down to 0). -/
def columnParity (mfr uid : Nat) : Nat :=
  (mfr >>> 4) ^^^ mfr ^^^ (uid >>> 28) ^^^ (uid >>> 24) ^^^ (uid >>> 20) ^^^
    (uid >>> 16) ^^^ (uid >>> 12) ^^^ (uid >>> 8) ^^^ (uid >>> 4) ^^^ uid

/-! ### The `manchester` macro -/

/-- Logical-bit view of the `manchester bit, count` macro: the macro recurses
on `bit >> 1, count - 1` first and then emits `bit & 1`, so the logical bits
go out most-significant first. -/
def manchesterBits (v : Nat) : Nat → List Bool
  | 0 => []
  | n + 1 => manchesterBits (v >>> 1) n ++ [v &&& 1 == 1]

/-- Baseband view of the `manchester` macro: each logical `1` expands to
`baseband_1` then `baseband_0` (drive asserted then released), each logical
`0` to `baseband_0` then `baseband_1` — the inverted Manchester convention
noted in the `avrfid.S` header comment.  `true` stands for the attenuating
drive state (`DDRB = OUT_PINS`). -/
def manchesterBB (v : Nat) : Nat → List Bool
  | 0 => []
  | n + 1 =>
      manchesterBB (v >>> 1) n ++
        (if v &&& 1 == 1 then [true, false] else [false, true])

/-- Per-bit Manchester expansion rule shared by header, payload and stop bit. -/
def mEncode (b : Bool) : List Bool := if b then [true, false] else [false, true]

lemma length_manchesterBits : ∀ (n v : Nat), (manchesterBits v n).length = n := by
  intro n
  induction n with
  | zero => intro v; rfl
  | succ m ih => intro v; simp [manchesterBits, ih]

lemma and_one_beq (v : Nat) : (v &&& 1 == 1) = v.testBit 0 := by
  rw [Nat.and_one_is_mod, Nat.testBit_zero]
  rcases Nat.mod_two_eq_zero_or_one v with h | h <;> simp [h]

/-- Peeling the most significant emitted bit: `manchester v (n+1)` emits
bit `n` of `v` first, followed by the encoding of the lower `n` bits. -/
lemma manchesterBits_succ_cons (n : Nat) :
    ∀ v, manchesterBits v (n + 1) = v.testBit n :: manchesterBits v n := by
  induction n with
  | zero =>
      intro v
      show [v &&& 1 == 1] = [v.testBit 0]
      rw [and_one_beq]
  | succ m ih =>
      intro v
      calc manchesterBits v (m + 2)
          = manchesterBits (v >>> 1) (m + 1) ++ [v &&& 1 == 1] := rfl
        _ = ((v >>> 1).testBit m :: manchesterBits (v >>> 1) m) ++ [v &&& 1 == 1] := by
            rw [ih]
        _ = v.testBit (m + 1) :: manchesterBits v (m + 1) := by
            rw [Nat.testBit_shiftRight, Nat.add_comm 1 m]
            rfl

/-- The `manchester` macro emits the field most-significant bit first. -/
lemma manchesterBits_eq_map (v : Nat) :
    ∀ n, manchesterBits v n = (List.range n).reverse.map (v.testBit ·) := by
  intro n
  induction n with
  | zero => rfl
  | succ m ih =>
      rw [manchesterBits_succ_cons, ih, List.range_succ]
      simp

lemma manchesterBits_four (v : Nat) :
    manchesterBits v 4 = [v.testBit 3, v.testBit 2, v.testBit 1, v.testBit 0] := by
  rw [manchesterBits_eq_map]
  rfl

/-- The baseband emission of the `manchester` macro is exactly the per-bit
expansion `mEncode` applied to each logical bit, in order. -/
lemma manchesterBB_eq_flatMap (n : Nat) :
    ∀ v, manchesterBB v n = (manchesterBits v n).flatMap mEncode := by
  induction n with
  | zero => intro v; rfl
  | succ m ih =>
      intro v
      simp [manchesterBB, manchesterBits, ih, mEncode]

/-! ### Arithmetic facts about the parity macros -/

lemma and_fifteen (x : Nat) : x &&& 15 = x % 16 := by
  have h := Nat.and_pow_two_sub_one_eq_mod x 4
  norm_num at h
  exact h

lemma xor_mod_two (a b : Nat) : (a ^^^ b) % 2 = (a % 2 + b % 2) % 2 := by
  have h := Nat.testBit_xor a b 0
  rw [Nat.testBit_zero, Nat.testBit_zero, Nat.testBit_zero] at h
  rcases Nat.mod_two_eq_zero_or_one a with ha | ha <;>
    rcases Nat.mod_two_eq_zero_or_one b with hb | hb <;>
    rcases Nat.mod_two_eq_zero_or_one (a ^^^ b) with hx | hx <;>
    simp [ha, hb, hx] at h ⊢

/-- Macro `ROW_PARITY` only looks at the low nibble of its argument: the data bits
are masked with `0xF` and the parity bit XORs bit 0 of `n, n>>1, n>>2, n>>3`. -/
lemma rowParity_mod (x : Nat) : rowParity x = rowParity (x % 16) := by
  unfold rowParity
  congr 1
  · rw [and_fifteen, and_fifteen]
    congr 1
    omega
  · simp only [Nat.and_one_is_mod, Nat.shiftRight_eq_div_pow, xor_mod_two]
    norm_num
    omega

/-! ### Configuration (the `id.h` constants) and the emitted frames -/

/-- The five identifier constants that `id.h` provides to `avrfid.S`:
slots 0 and 1 read `EM4102_MFR_ID`, slot 2 reads `EM4102_MFR_ID2`, and each
slot has its own unique id. -/
structure EMConfig where
  EM4102_MFR_ID : Nat
  EM4102_MFR_ID2 : Nat
  EM4102_UNIQUE_ID0 : Nat
  EM4102_UNIQUE_ID1 : Nat
  EM4102_UNIQUE_ID2 : Nat

/-- Logical bits of one frame: the common body of `emulateid0/1/2`
(`avrfid.S` lines 189-237) as a function of the manufacturer and unique-id
constants that the slot is bound to: `header` (9 bits of `0x1FF`), ten
`ROW_PARITY` groups of width 5, the `COLUMN_PARITY` group of width 4, and
`stop_bit` (`manchester 0, 1`). -/
def emFrameBits (mfr uid : Nat) : List Bool :=
  manchesterBits 0x1FF 9 ++
    manchesterBits (rowParity (mfr >>> 4)) 5 ++
    manchesterBits (rowParity (mfr >>> 0)) 5 ++
    manchesterBits (rowParity (uid >>> 28)) 5 ++
    manchesterBits (rowParity (uid >>> 24)) 5 ++
    manchesterBits (rowParity (uid >>> 20)) 5 ++
    manchesterBits (rowParity (uid >>> 16)) 5 ++
    manchesterBits (rowParity (uid >>> 12)) 5 ++
    manchesterBits (rowParity (uid >>> 8)) 5 ++
    manchesterBits (rowParity (uid >>> 4)) 5 ++
    manchesterBits (rowParity (uid >>> 0)) 5 ++
    manchesterBits (columnParity mfr uid) 4 ++
    manchesterBits 0 1

/-- Frame of `emulateid0`: bound to `EM4102_MFR_ID` and `EM4102_UNIQUE_ID0`. -/
def emulateid0Frame (c : EMConfig) : List Bool :=
  emFrameBits c.EM4102_MFR_ID c.EM4102_UNIQUE_ID0

/-- Frame of `emulateid1`: bound to `EM4102_MFR_ID` and `EM4102_UNIQUE_ID1`. -/
def emulateid1Frame (c : EMConfig) : List Bool :=
  emFrameBits c.EM4102_MFR_ID c.EM4102_UNIQUE_ID1

/-- Frame of `emulateid2`: bound to `EM4102_MFR_ID2` and `EM4102_UNIQUE_ID2`. -/
def emulateid2Frame (c : EMConfig) : List Bool :=
  emFrameBits c.EM4102_MFR_ID2 c.EM4102_UNIQUE_ID2

/-! ### The row/column parity check and de-framing (decoder) -/

/-- Read one 5-bit row group: 4 data bits (most significant first) followed
by one parity bit; accept only if the five bits have even parity. -/
def readGroup : List Bool → Option (Nat × List Bool)
  | b3 :: b2 :: b1 :: b0 :: p :: rest =>
      if (b3.toNat + b2.toNat + b1.toNat + b0.toNat + p.toNat) % 2 = 0 then
        some (8 * b3.toNat + 4 * b2.toNat + 2 * b1.toNat + b0.toNat, rest)
      else none
  | _ => none

/-- After the ten row groups: the four column-parity bits must equal the
XOR of the ten recovered nibbles, the stop bit must be 0, and nothing may
follow; the identifier pair is reassembled from the nibbles. -/
def decodeTail (m1 m0 u7 u6 u5 u4 u3 u2 u1 u0 : Nat) :
    List Bool → Option (Nat × Nat)
  | [c3, c2, c1, c0, stop] =>
      if stop = false ∧
          8 * c3.toNat + 4 * c2.toNat + 2 * c1.toNat + c0.toNat
            = (m1 ^^^ m0 ^^^ u7 ^^^ u6 ^^^ u5 ^^^ u4 ^^^ u3 ^^^ u2 ^^^ u1 ^^^ u0) then
        some (16 * m1 + m0,
          ((((((u7 * 16 + u6) * 16 + u5) * 16 + u4) * 16 + u3) * 16 + u2) * 16 + u1)
            * 16 + u0)
      else none
  | _ => none

/-- De-frame and parity-check the 55 bits after the header: ten row groups,
then the column group and stop bit. -/
def decodeBody (l : List Bool) : Option (Nat × Nat) :=
  (readGroup l).bind fun g1 =>
  (readGroup g1.2).bind fun g2 =>
  (readGroup g2.2).bind fun g3 =>
  (readGroup g3.2).bind fun g4 =>
  (readGroup g4.2).bind fun g5 =>
  (readGroup g5.2).bind fun g6 =>
  (readGroup g6.2).bind fun g7 =>
  (readGroup g7.2).bind fun g8 =>
  (readGroup g8.2).bind fun g9 =>
  (readGroup g9.2).bind fun g10 =>
  decodeTail g1.1 g2.1 g3.1 g4.1 g5.1 g6.1 g7.1 g8.1 g9.1 g10.1 g10.2

/-- Full de-framing with the row/column parity check: 9 header 1-bits, then
the body. -/
def decodeFrame : List Bool → Option (Nat × Nat)
  | true :: true :: true :: true :: true :: true :: true :: true :: true :: rest =>
      decodeBody rest
  | _ => none

/-- Reading back a transmitted row group recovers the nibble (for in-range
nibbles), and its parity always checks out. -/
lemma readGroup_rowParity_lt (r : Nat) (h : r < 16) (rest : List Bool) :
    readGroup (manchesterBits (rowParity r) 5 ++ rest) = some (r, rest) := by
  interval_cases r <;> rfl

/-- Emitted `ROW_PARITY` groups always decode to the low nibble of the argument. -/
lemma readGroup_rowParity (x : Nat) (rest : List Bool) :
    readGroup (manchesterBits (rowParity x) 5 ++ rest) = some (x % 16, rest) := by
  rw [rowParity_mod]
  exact readGroup_rowParity_lt (x % 16) (Nat.mod_lt x (by norm_num)) rest

/-- The four transmitted column bits reassemble to the low nibble of the
`COLUMN_PARITY` value. -/
lemma nibble_recompose (c : Nat) :
    8 * (c.testBit 3).toNat + 4 * (c.testBit 2).toNat + 2 * (c.testBit 1).toNat +
      (c.testBit 0).toNat = c % 16 := by
  have h : ∀ i, i < 4 → c.testBit i = (c % 16).testBit i := by
    intro i hi
    rw [show (16 : Nat) = 2 ^ 4 by norm_num, Nat.testBit_mod_two_pow]
    simp [hi]
  rw [h 3 (by norm_num), h 2 (by norm_num), h 1 (by norm_num), h 0 (by norm_num)]
  have hlt : c % 16 < 16 := Nat.mod_lt c (by norm_num)
  revert hlt
  generalize c % 16 = r
  intro hlt
  interval_cases r <;> rfl

/-- The low nibble of `COLUMN_PARITY` is the XOR of the low nibbles of the
ten payload positions. -/
lemma columnParity_mod16 (mfr uid : Nat) :
    columnParity mfr uid % 16 =
      (mfr >>> 4) % 16 ^^^ mfr % 16 ^^^ (uid >>> 28) % 16 ^^^ (uid >>> 24) % 16 ^^^
        (uid >>> 20) % 16 ^^^ (uid >>> 16) % 16 ^^^ (uid >>> 12) % 16 ^^^
        (uid >>> 8) % 16 ^^^ (uid >>> 4) % 16 ^^^ uid % 16 := by
  simp only [← and_fifteen, columnParity, Nat.and_xor_distrib_right]

/-- Round trip: de-framing plus the parity checks recover the identifier
record from the emitted frame. -/
lemma decodeFrame_emFrameBits (mfr uid : Nat) (hm : mfr < 256)
    (hu : uid < 4294967296) :
    decodeFrame (emFrameBits mfr uid) = some (mfr, uid) := by
  have hhdr : manchesterBits 0x1FF 9 =
      [true, true, true, true, true, true, true, true, true] := rfl
  have hstop : manchesterBits 0 1 = [false] := rfl
  have hframe : ∀ rest : List Bool,
      decodeFrame (true :: true :: true :: true :: true :: true :: true :: true ::
        true :: rest) = decodeBody rest := fun _ => rfl
  rw [emFrameBits, hhdr, hstop, manchesterBits_four]
  simp only [List.append_assoc, List.cons_append, List.nil_append]
  rw [hframe]
  have htail : ∀ (m1 m0 u7 u6 u5 u4 u3 u2 u1 u0 : Nat) (c3 c2 c1 c0 s : Bool),
      decodeTail m1 m0 u7 u6 u5 u4 u3 u2 u1 u0 [c3, c2, c1, c0, s] =
        if s = false ∧
            8 * c3.toNat + 4 * c2.toNat + 2 * c1.toNat + c0.toNat
              = (m1 ^^^ m0 ^^^ u7 ^^^ u6 ^^^ u5 ^^^ u4 ^^^ u3 ^^^ u2 ^^^ u1 ^^^ u0) then
          some (16 * m1 + m0,
            ((((((u7 * 16 + u6) * 16 + u5) * 16 + u4) * 16 + u3) * 16 + u2) * 16 + u1)
              * 16 + u0)
        else none := fun _ _ _ _ _ _ _ _ _ _ _ _ _ _ _ => rfl
  simp only [decodeBody, readGroup_rowParity, Option.some_bind, htail]
  rw [if_pos ⟨trivial, by
    rw [nibble_recompose, columnParity_mod16]
    simp [Nat.shiftRight_zero]⟩]
  have h1 : 16 * ((mfr >>> 4) % 16) + (mfr >>> 0) % 16 = mfr := by
    simp only [Nat.shiftRight_eq_div_pow]
    norm_num
    omega
  have h2 : ((((((((uid >>> 28) % 16) * 16 + (uid >>> 24) % 16) * 16 +
      (uid >>> 20) % 16) * 16 + (uid >>> 16) % 16) * 16 + (uid >>> 12) % 16) * 16 +
      (uid >>> 8) % 16) * 16 + (uid >>> 4) % 16) * 16 + (uid >>> 0) % 16 = uid := by
    simp only [Nat.shiftRight_eq_div_pow]
    norm_num
    omega
  rw [h1, h2]

lemma length_emFrameBits (mfr uid : Nat) : (emFrameBits mfr uid).length = 64 := by
  simp [emFrameBits, length_manchesterBits]

/-- Claim C1: for every stored identifier record (8-bit manufacturer code plus
32-bit unique code), the logical-bit frame emitted by each packet assembler
(`emulateid0/1/2`) is exactly 64 bits long, and applying the row/column
parity check and de-framing to that frame recovers the original
manufacturer+unique code pair. -/
theorem frame_roundtrip (c : EMConfig)
    (h0 : c.EM4102_MFR_ID < 256) (h1 : c.EM4102_MFR_ID2 < 256)
    (h2 : c.EM4102_UNIQUE_ID0 < 4294967296)
    (h3 : c.EM4102_UNIQUE_ID1 < 4294967296)
    (h4 : c.EM4102_UNIQUE_ID2 < 4294967296) :
    ((emulateid0Frame c).length = 64 ∧
      decodeFrame (emulateid0Frame c)
        = some (c.EM4102_MFR_ID, c.EM4102_UNIQUE_ID0)) ∧
    ((emulateid1Frame c).length = 64 ∧
      decodeFrame (emulateid1Frame c)
        = some (c.EM4102_MFR_ID, c.EM4102_UNIQUE_ID1)) ∧
    ((emulateid2Frame c).length = 64 ∧
      decodeFrame (emulateid2Frame c)
        = some (c.EM4102_MFR_ID2, c.EM4102_UNIQUE_ID2)) :=
  ⟨⟨length_emFrameBits _ _, decodeFrame_emFrameBits _ _ h0 h2⟩,
   ⟨length_emFrameBits _ _, decodeFrame_emFrameBits _ _ h0 h3⟩,
   ⟨length_emFrameBits _ _, decodeFrame_emFrameBits _ _ h1 h4⟩⟩

/-- Witness for `frame_roundtrip`, at the spec's concrete scenario record
(manufacturer `0x12`, unique code `0x3456789A`). -/
theorem frame_roundtrip_witness :
    (0x12 < 256 ∧ (0x3456789A : Nat) < 4294967296) ∧
    (emulateid0Frame ⟨0x12, 0x34, 0x3456789A, 1, 2⟩).length = 64 ∧
    decodeFrame (emulateid0Frame ⟨0x12, 0x34, 0x3456789A, 1, 2⟩)
      = some (0x12, 0x3456789A) :=
  ⟨⟨by decide, by decide⟩,
    (frame_roundtrip ⟨0x12, 0x34, 0x3456789A, 1, 2⟩ (by decide) (by decide)
      (by decide) (by decide) (by decide)).1⟩

/-- Claim C2: every invocation of the baseband bit emitter, for both bit
values, consumes the identical, constant total of 32 clock cycles per
baseband half-bit (the 30-cycle routine including its `rcall`, plus the
2-cycle padding `rjmp` of the invoking macro). -/
theorem baseband_cycles_constant :
    traceCycles baseband_0Trace = 32 ∧ traceCycles baseband_1Trace = 32 ∧
    traceCycles baseband_0Trace = traceCycles baseband_1Trace := by
  decide

/-- Number of set bits in a 4-bit nibble. -/
def nibbleOnes (n : Nat) : Nat :=
  (n.testBit 0).toNat + (n.testBit 1).toNat + (n.testBit 2).toNat +
    (n.testBit 3).toNat

/-- Number of set bits in a 5-bit row group. -/
def fiveOnes (w : Nat) : Nat := nibbleOnes w + (w.testBit 4).toNat

/-- Claim C3: for every 4-bit nibble `n`, `ROW_PARITY` produces
`((n & 0xF) << 1)` OR'd with the even-parity bit of `n`, and the resulting
5-bit row group always has an even number of set bits. -/
theorem rowParity_even_group :
    ∀ n : Nat, n < 16 →
      rowParity n = ((n &&& 0xF) <<< 1) ||| (nibbleOnes n % 2) ∧
      fiveOnes (rowParity n) % 2 = 0 := by
  decide

/-- Witness for `rowParity_even_group` at the nibble `0xB`. -/
theorem rowParity_even_group_witness :
    (11 < 16) ∧
    (rowParity 11 = ((11 &&& 0xF) <<< 1) ||| (nibbleOnes 11 % 2) ∧
      fiveOnes (rowParity 11) % 2 = 0) :=
  ⟨by decide, rowParity_even_group 11 (by decide)⟩

/-- The ten 4-bit payload nibbles of a frame, in transmission order:
two manufacturer nibbles, then eight unique-id nibbles. -/
def payloadNibbles (mfr uid : Nat) : List Nat :=
  [(mfr >>> 4) &&& 0xF, mfr &&& 0xF, (uid >>> 28) &&& 0xF, (uid >>> 24) &&& 0xF,
    (uid >>> 20) &&& 0xF, (uid >>> 16) &&& 0xF, (uid >>> 12) &&& 0xF,
    (uid >>> 8) &&& 0xF, (uid >>> 4) &&& 0xF, uid &&& 0xF]

/-- XOR of bit `j` across every payload nibble of the frame. -/
def columnXor (mfr uid j : Nat) : Bool :=
  (payloadNibbles mfr uid).foldl (fun a n => xor a (Nat.testBit n j)) false

/-- Claim C4: for every bit-column `j` in 0..3, the column-parity bit
transmitted at position `j` (the column group goes out bit 3 first) equals
the XOR of bit `j` of every payload nibble of the frame. -/
lemma columnParity_testBit (mfr uid j : Nat) (h15 : Nat.testBit 15 j = true) :
    (columnParity mfr uid).testBit j = columnXor mfr uid j := by
  have hA : columnXor mfr uid j =
      xor (xor (xor (xor (xor (xor (xor (xor (xor
        (((mfr >>> 4) &&& 0xF).testBit j) ((mfr &&& 0xF).testBit j))
        (((uid >>> 28) &&& 0xF).testBit j)) (((uid >>> 24) &&& 0xF).testBit j))
        (((uid >>> 20) &&& 0xF).testBit j)) (((uid >>> 16) &&& 0xF).testBit j))
        (((uid >>> 12) &&& 0xF).testBit j)) (((uid >>> 8) &&& 0xF).testBit j))
        (((uid >>> 4) &&& 0xF).testBit j)) ((uid &&& 0xF).testBit j) := by
    simp only [columnXor, payloadNibbles, List.foldl_cons, List.foldl_nil,
      Bool.false_xor]
  have hB : xor (xor (xor (xor (xor (xor (xor (xor (xor
        (((mfr >>> 4) &&& 0xF).testBit j) ((mfr &&& 0xF).testBit j))
        (((uid >>> 28) &&& 0xF).testBit j)) (((uid >>> 24) &&& 0xF).testBit j))
        (((uid >>> 20) &&& 0xF).testBit j)) (((uid >>> 16) &&& 0xF).testBit j))
        (((uid >>> 12) &&& 0xF).testBit j)) (((uid >>> 8) &&& 0xF).testBit j))
        (((uid >>> 4) &&& 0xF).testBit j)) ((uid &&& 0xF).testBit j) =
      xor (xor (xor (xor (xor (xor (xor (xor (xor
        ((mfr >>> 4).testBit j) (mfr.testBit j)) ((uid >>> 28).testBit j))
        ((uid >>> 24).testBit j)) ((uid >>> 20).testBit j))
        ((uid >>> 16).testBit j)) ((uid >>> 12).testBit j))
        ((uid >>> 8).testBit j)) ((uid >>> 4).testBit j)) (uid.testBit j) := by
    simp only [Nat.testBit_land, h15, Bool.and_true]
  have hC : (columnParity mfr uid).testBit j =
      xor (xor (xor (xor (xor (xor (xor (xor (xor
        ((mfr >>> 4).testBit j) (mfr.testBit j)) ((uid >>> 28).testBit j))
        ((uid >>> 24).testBit j)) ((uid >>> 20).testBit j))
        ((uid >>> 16).testBit j)) ((uid >>> 12).testBit j))
        ((uid >>> 8).testBit j)) ((uid >>> 4).testBit j)) (uid.testBit j) := by
    simp only [columnParity, Nat.testBit_xor]
  rw [hC, ← hB, ← hA]

theorem columnParity_bits (mfr uid : Nat) :
    manchesterBits (columnParity mfr uid) 4 =
      [columnXor mfr uid 3, columnXor mfr uid 2, columnXor mfr uid 1,
        columnXor mfr uid 0] := by
  rw [manchesterBits_four, columnParity_testBit mfr uid 3 rfl,
    columnParity_testBit mfr uid 2 rfl, columnParity_testBit mfr uid 1 rfl,
    columnParity_testBit mfr uid 0 rfl]

/-- Claim C5: the `manchester` macro encodes an `n`-bit field most-significant
bit first (each bit obtained by shift-and-mask), expands every logical bit —
of header, payload and stop bit alike — by the one shared rule `mEncode`
into two complementary baseband half-bits (inverted polarity: a 1 is
drive-then-release), and a zero-width field emits nothing. -/
theorem manchester_encoder_spec (v n : Nat) :
    manchesterBB v n = (manchesterBits v n).flatMap mEncode ∧
    manchesterBits v n = (List.range n).reverse.map (v.testBit ·) ∧
    (∀ b, mEncode b = [b, !b]) ∧
    manchesterBB v 0 = [] ∧ manchesterBits v 0 = [] :=
  ⟨manchesterBB_eq_flatMap n v, manchesterBits_eq_map v n,
    fun b => by cases b <;> rfl, rfl, rfl⟩

/-- Everything between the 9-bit header and the stop bit of a frame. -/
def emFrameMid (mfr uid : Nat) : List Bool :=
  manchesterBits (rowParity (mfr >>> 4)) 5 ++
    manchesterBits (rowParity (mfr >>> 0)) 5 ++
    manchesterBits (rowParity (uid >>> 28)) 5 ++
    manchesterBits (rowParity (uid >>> 24)) 5 ++
    manchesterBits (rowParity (uid >>> 20)) 5 ++
    manchesterBits (rowParity (uid >>> 16)) 5 ++
    manchesterBits (rowParity (uid >>> 12)) 5 ++
    manchesterBits (rowParity (uid >>> 8)) 5 ++
    manchesterBits (rowParity (uid >>> 4)) 5 ++
    manchesterBits (rowParity (uid >>> 0)) 5 ++
    manchesterBits (columnParity mfr uid) 4

lemma emFrameBits_decomp (mfr uid : Nat) :
    emFrameBits mfr uid
      = List.replicate 9 true ++ (emFrameMid mfr uid ++ [false]) := by
  have hhdr : manchesterBits 0x1FF 9 = List.replicate 9 true := rfl
  have hstop : manchesterBits 0 1 = [false] := rfl
  rw [emFrameBits, hhdr, hstop, emFrameMid]
  simp [List.append_assoc]

lemma emFrameBits_take9 (mfr uid : Nat) :
    (emFrameBits mfr uid).take 9 = List.replicate 9 true := by
  rw [emFrameBits_decomp]
  exact List.take_left' (by simp)

lemma emFrameBits_getLast (mfr uid : Nat) :
    (emFrameBits mfr uid).getLast? = some false := by
  rw [emFrameBits_decomp, ← List.append_assoc]
  exact List.getLast?_concat _

/-- Claim C6: every frame of every packet assembler begins with exactly the
9-bit all-ones header, ends with the logical 0 stop bit, and has the fixed
64-bit shape, for every build configuration. -/
theorem frame_header_stop (c : EMConfig) :
    ((emulateid0Frame c).take 9 = List.replicate 9 true ∧
      (emulateid0Frame c).getLast? = some false ∧
      (emulateid0Frame c).length = 64) ∧
    ((emulateid1Frame c).take 9 = List.replicate 9 true ∧
      (emulateid1Frame c).getLast? = some false ∧
      (emulateid1Frame c).length = 64) ∧
    ((emulateid2Frame c).take 9 = List.replicate 9 true ∧
      (emulateid2Frame c).getLast? = some false ∧
      (emulateid2Frame c).length = 64) :=
  ⟨⟨emFrameBits_take9 _ _, emFrameBits_getLast _ _, length_emFrameBits _ _⟩,
   ⟨emFrameBits_take9 _ _, emFrameBits_getLast _ _, length_emFrameBits _ _⟩,
   ⟨emFrameBits_take9 _ _, emFrameBits_getLast _ _, length_emFrameBits _ _⟩⟩

/-- Modelled from the spec for claim C7 only: a column parity over an 8-bit
manufacturer code and a *40-bit* unique code, XOR of the two manufacturer
nibbles and all ten unique-id nibbles (shifts 36 down to 0).  The code's
`COLUMN_PARITY` (`columnParity`) uses only the eight nibbles at shifts
28..0. -/
def columnParityTen (mfr uid : Nat) : Nat :=
  (mfr >>> 4) ^^^ mfr ^^^ (uid >>> 36) ^^^ (uid >>> 32) ^^^ (uid >>> 28) ^^^
    (uid >>> 24) ^^^ (uid >>> 20) ^^^ (uid >>> 16) ^^^ (uid >>> 12) ^^^
    (uid >>> 8) ^^^ (uid >>> 4) ^^^ uid

/-- Claim C7, counterexample: at the 40-bit unique code `2^32` (manufacturer
code 0) the transmitted column-parity nibble of the code differs from the
claim's ten-unique-nibble formula, and the emitted frame cannot even
distinguish this 40-bit record from unique code 0: the code supports 32-bit
unique codes, not 40-bit ones. -/
theorem columnParity_ten_counterexample :
    columnParity 0 4294967296 &&& 0xF ≠ columnParityTen 0 4294967296 &&& 0xF ∧
    emFrameBits 0 4294967296 = emFrameBits 0 0 := by
  constructor
  · decide
  · rfl

/-- Claim C7, amended: each stored identifier record is an 8-bit manufacturer
code and a 32-bit unique code; the transmitted column-parity nibble is the
XOR of the two manufacturer nibbles and all eight unique-id nibbles; and the
parity generator is total on all 40-bit identifier inputs (the statement
holds for arbitrary `Nat` inputs). -/
theorem columnParity_nibble_xor (mfr uid : Nat) :
    columnParity mfr uid &&& 0xF =
      ((mfr >>> 4) &&& 0xF) ^^^ (mfr &&& 0xF) ^^^ ((uid >>> 28) &&& 0xF) ^^^
        ((uid >>> 24) &&& 0xF) ^^^ ((uid >>> 20) &&& 0xF) ^^^
        ((uid >>> 16) &&& 0xF) ^^^ ((uid >>> 12) &&& 0xF) ^^^
        ((uid >>> 8) &&& 0xF) ^^^ ((uid >>> 4) &&& 0xF) ^^^ (uid &&& 0xF) := by
  simp only [columnParity, Nat.and_xor_distrib_right]

/-! ### The selector loop of `test.c` -/

/-- Mask `_BV(i)` from avr-libc: a single bit set. -/
def BV (i : Nat) : Nat := 1 <<< i

/-- The `loop()` of `test.c`, as a dispatch on the sampled `PINB` value
(bit low = button pressed = slot selected).  The three `if`s are written
sequentially in the C source, but a taken branch calls an `emulateidN`
routine that never returns, so the chain is first-match: slot 0 before
slot 1 before slot 2, and no assertion means no emission. -/
def loopDispatch (pinb : Nat) : Option Nat :=
  if pinb &&& BV 0 = 0 then some 0
  else if pinb &&& BV 1 = 0 then some 1
  else if pinb &&& BV 2 = 0 then some 2
  else none

/-- The infinite emission stream of a slot once its assembler is entered:
each `emulateidN` body emits its 64-bit frame and ends in `rjmp emulateidN`,
so bit `k` of the stream is bit `k % 64` of the frame. -/
def slotStream (c : EMConfig) : Nat → Nat → Bool
  | 0, k => (emulateid0Frame c).getD (k % 64) false
  | 1, k => (emulateid1Frame c).getD (k % 64) false
  | _, k => (emulateid2Frame c).getD (k % 64) false

/-- Claim C8: asserting exactly one select input dispatches to that slot's
packet assembler and the slot's frame is then emitted indefinitely (the
stream is 64-periodic); asserting none produces no emission; when several
inputs are asserted at once the first-checked input wins (slot 0 over
slot 1 over slot 2). -/
theorem selector_dispatch (c : EMConfig) (pinb : Nat) :
    (pinb &&& BV 0 = 0 → loopDispatch pinb = some 0) ∧
    (pinb &&& BV 0 ≠ 0 → pinb &&& BV 1 = 0 → loopDispatch pinb = some 1) ∧
    (pinb &&& BV 0 ≠ 0 → pinb &&& BV 1 ≠ 0 → pinb &&& BV 2 = 0 →
      loopDispatch pinb = some 2) ∧
    (pinb &&& BV 0 ≠ 0 → pinb &&& BV 1 ≠ 0 → pinb &&& BV 2 ≠ 0 →
      loopDispatch pinb = none) ∧
    (∀ i k, slotStream c i (k + 64) = slotStream c i k) := by
  refine ⟨fun h0 => ?_, fun h0 h1 => ?_, fun h0 h1 h2 => ?_, fun h0 h1 h2 => ?_,
    fun i k => ?_⟩
  · simp [loopDispatch, h0]
  · simp [loopDispatch, h0, h1]
  · simp [loopDispatch, h0, h1, h2]
  · simp [loopDispatch, h0, h1, h2]
  · rcases i with _ | _ | i <;> simp [slotStream, Nat.add_mod_right]

/-- Witness for `selector_dispatch`: each dispatch case at a concrete
`PINB` sample. -/
theorem selector_dispatch_witness :
    loopDispatch 6 = some 0 ∧ loopDispatch 5 = some 1 ∧
    loopDispatch 3 = some 2 ∧ loopDispatch 7 = none :=
  ⟨(selector_dispatch ⟨0, 0, 0, 0, 0⟩ 6).1 (by decide),
   (selector_dispatch ⟨0, 0, 0, 0, 0⟩ 5).2.1 (by decide) (by decide),
   (selector_dispatch ⟨0, 0, 0, 0, 0⟩ 3).2.2.1 (by decide) (by decide) (by decide),
   (selector_dispatch ⟨0, 0, 0, 0, 0⟩ 7).2.2.2.1 (by decide) (by decide) (by decide)⟩

/-- Claim C9: a packet assembler never terminates: after the stop bit control
goes straight back to the header, so for every repetition `q` and offset
`r < 64`, bit `64*q + r` of the emission stream is bit `r` of the frame —
frames are emitted forever, back to back, with no inter-frame gap. -/
theorem assembler_runs_forever (c : EMConfig) (q r : Nat) (h : r < 64) :
    slotStream c 0 (64 * q + r) = (emulateid0Frame c).getD r false ∧
    slotStream c 1 (64 * q + r) = (emulateid1Frame c).getD r false ∧
    slotStream c 2 (64 * q + r) = (emulateid2Frame c).getD r false := by
  have hmod : (64 * q + r) % 64 = r := by omega
  exact ⟨by simp [slotStream, hmod], by simp [slotStream, hmod],
    by simp [slotStream, hmod]⟩

/-- Witness for `assembler_runs_forever` in the third frame repetition. -/
theorem assembler_runs_forever_witness :
    5 < 64 ∧
    slotStream ⟨0x12, 0x34, 0x3456789A, 5, 6⟩ 0 (64 * 2 + 5)
      = (emulateid0Frame ⟨0x12, 0x34, 0x3456789A, 5, 6⟩).getD 5 false :=
  ⟨by decide, (assembler_runs_forever ⟨0x12, 0x34, 0x3456789A, 5, 6⟩ 2 5
    (by decide)).1⟩

/-- The first 19 bits of a frame: header plus the two manufacturer row
groups.  This prefix depends only on the manufacturer code. -/
def emFrameHead (mfr : Nat) : List Bool :=
  manchesterBits 0x1FF 9 ++
    manchesterBits (rowParity (mfr >>> 4)) 5 ++
    manchesterBits (rowParity (mfr >>> 0)) 5

lemma emFrameBits_take19 (mfr uid : Nat) :
    (emFrameBits mfr uid).take 19 = emFrameHead mfr := by
  have hsplit : emFrameBits mfr uid = emFrameHead mfr ++
      (manchesterBits (rowParity (uid >>> 28)) 5 ++
        manchesterBits (rowParity (uid >>> 24)) 5 ++
        manchesterBits (rowParity (uid >>> 20)) 5 ++
        manchesterBits (rowParity (uid >>> 16)) 5 ++
        manchesterBits (rowParity (uid >>> 12)) 5 ++
        manchesterBits (rowParity (uid >>> 8)) 5 ++
        manchesterBits (rowParity (uid >>> 4)) 5 ++
        manchesterBits (rowParity (uid >>> 0)) 5 ++
        manchesterBits (columnParity mfr uid) 4 ++
        manchesterBits 0 1) := by
    rw [emFrameBits, emFrameHead]
    simp [List.append_assoc]
  rw [hsplit]
  exact List.take_left' (by simp [emFrameHead, length_manchesterBits])

/-- Claim C10: `emulateid0` and `emulateid1` are bound to the same
`EM4102_MFR_ID` constant, so in every build the header and the first two
row groups (the first 19 frame bits) of slots 0 and 1 coincide; slot 2 is
bound to the independent `EM4102_MFR_ID2`, and its manufacturer row groups
differ as soon as that constant differs. -/
theorem shared_mfr_row_groups :
    (∀ c : EMConfig, (emulateid0Frame c).take 19 = (emulateid1Frame c).take 19) ∧
    (emulateid0Frame ⟨0x12, 0x34, 0, 0, 0⟩).take 19
      ≠ (emulateid2Frame ⟨0x12, 0x34, 0, 0, 0⟩).take 19 := by
  constructor
  · intro c
    rw [emulateid0Frame, emulateid1Frame, emFrameBits_take19, emFrameBits_take19]
  · decide
